import Mathlib

/-!
Verification of the flexee event emitter (dlueth/qoopido.flexee).

Shallow embedding of `src/index.js`, `src/class/listener.js`,
`src/class/event.js` and `src/helper/validator.js`.

Modelling decisions:
* JavaScript function objects are identified by a `Nat` token (`callback`);
  `!==` comparison on functions becomes `Nat` disequality.
* `RegExp` objects are a `Pattern` structure carrying an object-identity token
  `pid` plus `source` and `flags`; `RegExp.prototype.toString` is
  `Pattern.serialize`, and `RegExp.prototype.test` is an external parameter
  `tst : String → String → String → Bool` (source, flags, name), since regex
  behaviour is determined by source text and flags, never by object identity.
* `+new Date()` is modelled by an explicit clock: a function `clock : Nat → Int`
  together with a `tick` index in the world; each read consumes one tick.
* The module-level `weakmap` from emitter instances to private storage is a
  function `storages : Nat → Storage`; emitter instances are the indices,
  index 0 being the module's broadcast (`global`) emitter created at load time.
* `Listener` objects are mutable and shared between the registry and the
  dispatch snapshot; object identity is modelled by a fresh `lid` drawn from a
  world counter, and the dispatcher's in-place `remaining -= 1` becomes an
  update of the record with that `lid`.
* Listener callbacks may re-enter the public subscribe/unsubscribe API and may
  cancel the current event; this is modelled by an interpretation
  `interp : Nat → World → Bool → World × Bool` mapping a callback token, the
  current world and the current `isCanceled` flag to the mutated world and
  whether the callback invoked `event.cancel()`.  (Real callbacks cannot reach
  the hidden listener records directly, so reading `remaining` from the
  snapshot record agrees with reading it from the live object.)
-/

set_option autoImplicit false

namespace Flexee

/-- A `RegExp` value: object identity token plus source text and flags. -/
structure Pattern where
  pid : Nat
  source : String
  flags : String
deriving DecidableEq, Repr

/-- `RegExp.prototype.toString`: the serialized textual representation,
source and flags included. -/
def Pattern.serialize (p : Pattern) : String :=
  "/" ++ p.source ++ "/" ++ p.flags

/-- The identifier stored inside a `Listener`: an exact event name (string)
or a pattern (`RegExp`). -/
inductive StoredId where
  | name (s : String)
  | re (p : Pattern)
deriving DecidableEq, Repr

/-- `toString` of a stored identifier (a string serializes to itself). -/
def StoredId.serialize : StoredId → String
  | .name s => s
  | .re p => p.serialize

mutual
/-- A dynamically typed JavaScript value, as far as the emitter API
inspects one (arrays are a mirrored list type so that the API recursion
stays structural). -/
inductive JSVal where
  | str (s : String)
  | re (p : Pattern)
  | arr (l : JSValList)
  | num (n : Int)
  | bool (b : Bool)
  | undef
  | fn (k : Nat)
/-- A JavaScript array of values. -/
inductive JSValList where
  | nil
  | cons (v : JSVal) (l : JSValList)
end

/-- validator.isString -/
def isString : JSVal → Bool
  | .str _ => true
  | _ => false

/-- validator.isExpression -/
def isExpression : JSVal → Bool
  | .re _ => true
  | _ => false

/-- validator.isArray -/
def isArray : JSVal → Bool
  | .arr _ => true
  | _ => false

/-- validator.isIdentifier -/
def isIdentifier (v : JSVal) : Bool :=
  isString v || isExpression v || isArray v

/-- validator.isCallback (`typeof value === 'function'`) -/
def isCallback : JSVal → Bool
  | .fn _ => true
  | _ => false

/-- `typeof value === 'undefined'` -/
def isUndefined : JSVal → Bool
  | .undef => true
  | _ => false

/-- The callback token of a function value (only used under `isCallback`). -/
def cbId : JSVal → Nat
  | .fn k => k
  | _ => 0

/-- One registered listener record (class/listener.js). -/
structure Listener where
  lid : Nat
  identifier : StoredId
  callback : Nat
  timestamp : Int
  remaining : Option Int
deriving DecidableEq, Repr

instance : Inhabited Listener := ⟨⟨0, .name "", 0, 0, none⟩⟩

/-- The body of the `Listener` constructor:
`this.timestamp = !prepend ? +new Date() : (storage.timestamp = storage.timestamp - 1)`.
Returns the new record together with the (possibly decremented) value of
`storage.timestamp`; `now` is the `+new Date()` reading, consumed only in the
non-prepend branch. -/
def Listener.make (storageTs : Int) (now : Int) (lid : Nat) (identifier : StoredId)
    (callback : Nat) (prep : Bool) (limit : Option Int) : Listener × Int :=
  if !prep then (⟨lid, identifier, callback, now, limit⟩, storageTs)
  else (⟨lid, identifier, callback, storageTs - 1, limit⟩, storageTs - 1)

/-- Per-emitter private state held in the module weakmap:
`{ timestamp: +new Date(), events: {}, expressions: [] }`. -/
structure Storage where
  timestamp : Int
  events : List (String × List Listener)
  expressions : List Listener
deriving DecidableEq, Repr

instance : Inhabited Storage := ⟨⟨0, [], []⟩⟩

/-- Property lookup `this.events[name]` on the events object. -/
def lookupEvents : List (String × List Listener) → String → Option (List Listener)
  | [], _ => none
  | (k, ls) :: rest, n => if k = n then some ls else lookupEvents rest n

/-- `(this.events[name] = this.events[name] || []).push(listener)`:
append to the list at the key, creating the key (at the end, as JS property
insertion does) when absent. -/
def pushEvent : List (String × List Listener) → String → Listener → List (String × List Listener)
  | [], n, l => [(n, [l])]
  | (k, ls) :: rest, n, l =>
      if k = n then (k, ls ++ [l]) :: rest else (k, ls) :: pushEvent rest n l

/-- Replace the value stored at a key (used for filtering / clearing). -/
def updateAt : List (String × List Listener) → String → (List Listener → List Listener) →
    List (String × List Listener)
  | [], _, _ => []
  | (k, ls) :: rest, n, f =>
      if k = n then (k, f ls) :: rest else (k, ls) :: updateAt rest n f

/-- filterRemoveEvent: `listener.callback !== this` (keep on true). -/
def filterRemoveEvent (cb : Nat) (l : Listener) : Bool :=
  l.callback != cb

/-- filterRemoveExpression:
`!(listener.identifier.toString() === this.identifier.toString() &&
(typeof this.callback === 'undefined' || listener.callback === this.callback))`. -/
def filterRemoveExpression (p : Pattern) (cbv : JSVal) (l : Listener) : Bool :=
  !(l.identifier.serialize == p.serialize &&
    (isUndefined cbv || l.callback == cbId cbv))

/-- The whole mutable world: the weakmap of storages (index 0 is the module's
broadcast emitter), the allocation counter for listener object identity, and
the wall clock. -/
structure World where
  storages : Nat → Storage
  nstor : Nat
  nextLid : Nat
  clock : Nat → Int
  tick : Nat

/-- Update one storage slot of the weakmap. -/
def World.putStorage (w : World) (o : Nat) (st : Storage) : World :=
  { w with storages := fun i => if i = o then st else w.storages i }

/-- subscribeEvent: push a freshly constructed `Listener` onto
`events[name]`. -/
def subscribeEvent (w : World) (o : Nat) (name : String) (cb : Nat)
    (prep : Bool) (lim : Option Int) : World :=
  let st := w.storages o
  let r := Listener.make st.timestamp (w.clock w.tick) w.nextLid (.name name) cb prep lim
  let w1 := w.putStorage o { st with timestamp := r.2, events := pushEvent st.events name r.1 }
  { w1 with nextLid := w.nextLid + 1, tick := if prep then w.tick else w.tick + 1 }

/-- subscribeExpression: push a freshly constructed `Listener` onto
`expressions`. -/
def subscribeExpression (w : World) (o : Nat) (p : Pattern) (cb : Nat)
    (prep : Bool) (lim : Option Int) : World :=
  let st := w.storages o
  let r := Listener.make st.timestamp (w.clock w.tick) w.nextLid (.re p) cb prep lim
  let w1 := w.putStorage o { st with timestamp := r.2, expressions := st.expressions ++ [r.1] }
  { w1 with nextLid := w.nextLid + 1, tick := if prep then w.tick else w.tick + 1 }

/-- unsubscribeEvent: when `events[name]` exists, filter it by callback, or
truncate it (`length = 0`) when the callback argument is absent (falsy). -/
def unsubscribeEvent (st : Storage) (name : String) (cbv : JSVal) : Storage :=
  match lookupEvents st.events name with
  | none => st
  | some _ =>
      match cbv with
      | .fn k => { st with events := updateAt st.events name (List.filter (filterRemoveEvent k)) }
      | _ => { st with events := updateAt st.events name (fun _ => []) }

/-- unsubscribeExpression: filter `expressions` by serialized pattern text and
(optionally) callback. -/
def unsubscribeExpression (st : Storage) (p : Pattern) (cbv : JSVal) : Storage :=
  { st with expressions := st.expressions.filter (filterRemoveExpression p cbv) }

mutual
/-- `Emitter.prototype.on` (the part that mutates the world).  Recurses
element-wise on array identifiers exactly as `identifier.forEach` does
(`onWList` is the `forEach` loop). -/
def onW : JSVal → JSVal → Bool → Option Int → Nat → World → World
  | idv, cbv, prep, lim, o, w =>
      if isIdentifier idv && isCallback cbv then
        match idv with
        | .str s => subscribeEvent w o s (cbId cbv) prep lim
        | .re p => subscribeExpression w o p (cbId cbv) prep lim
        | .arr l => onWList l cbv prep lim o w
        | _ => w
      else w
/-- The `identifier.forEach` loop of `on`. -/
def onWList : JSValList → JSVal → Bool → Option Int → Nat → World → World
  | .nil, _, _, _, _, w => w
  | .cons v vs, cbv, prep, lim, o, w => onWList vs cbv prep lim o (onW v cbv prep lim o w)
end

mutual
/-- `Emitter.prototype.off` (the part that mutates the world); `offWList` is
the `forEach` loop over array identifiers. -/
def offW : JSVal → JSVal → Nat → World → World
  | idv, cbv, o, w =>
      if isIdentifier idv && (isCallback cbv || isUndefined cbv) then
        match idv with
        | .str s => w.putStorage o (unsubscribeEvent (w.storages o) s cbv)
        | .re p => w.putStorage o (unsubscribeExpression (w.storages o) p cbv)
        | .arr l => offWList l cbv o w
        | _ => w
      else w
/-- The `identifier.forEach` loop of `off`. -/
def offWList : JSValList → JSVal → Nat → World → World
  | .nil, _, _, w => w
  | .cons v vs, cbv, o, w => offWList vs cbv o (offW v cbv o w)
end

/-- `emitter.on(identifier, callback, prepend, limit)`; the second component is
`return this`. -/
def Emitter.on (w : World) (o : Nat) (idv cbv : JSVal) (prep : Bool) (lim : Option Int) :
    World × Nat :=
  (onW idv cbv prep lim o w, o)

/-- `emitter.once(identifier, callback, prepend)` = `on(..., 1)`. -/
def Emitter.once (w : World) (o : Nat) (idv cbv : JSVal) (prep : Bool) : World × Nat :=
  Emitter.on w o idv cbv prep (some 1)

/-- `emitter.limit(identifier, limit, callback, prepend)` = `on(identifier,
callback, prepend, limit)`. -/
def Emitter.limit (w : World) (o : Nat) (idv : JSVal) (lim : Option Int) (cbv : JSVal)
    (prep : Bool) : World × Nat :=
  Emitter.on w o idv cbv prep lim

/-- `emitter.off(identifier, callback)`; the second component is
`return this`. -/
def Emitter.off (w : World) (o : Nat) (idv cbv : JSVal) : World × Nat :=
  (offW idv cbv o w, o)

/-- The comparator of the source is `a.timestamp - b.timestamp`; `Array.sort`
with a numeric comparator is a stable sort ascending by timestamp
(ES2019 guarantees stability).  Stable insertion: an element is placed before
the first element whose timestamp is not smaller. -/
def insertByTimestamp (x : Listener) : List Listener → List Listener
  | [] => [x]
  | y :: ys => if y.timestamp < x.timestamp then y :: insertByTimestamp x ys
               else x :: y :: ys

/-- `listener.sort(sortListener)`: stable sort ascending by `timestamp`. -/
def sortListener : List Listener → List Listener
  | [] => []
  | x :: xs => insertByTimestamp x (sortListener xs)

/-- `expression.identifier.test(name)` for a stored identifier, with the regex
engine supplied as `tst` (source, flags, name). -/
def storedTest (tst : String → String → String → Bool) : StoredId → String → Bool
  | .re p, n => tst p.source p.flags n
  | .name _, _ => false

/-- The listeners in `events[name]` (empty when the key is absent). -/
def eventsAt (st : Storage) (n : String) : List Listener :=
  (lookupEvents st.events n).getD []

/-- The pattern listeners of a storage whose pattern matches the name, in
registration order (the `expressions.forEach` / `test` / `push` loop). -/
def matchingExpressions (tst : String → String → String → Bool)
    (st : Storage) (n : String) : List Listener :=
  st.expressions.filter (fun l => storedTest tst l.identifier n)

/-- retrieveListener with `isGlobal === true`: own exact listeners plus own
matching pattern listeners, sorted. -/
def retrieveListenerG (tst : String → String → String → Bool)
    (w : World) (o : Nat) (n : String) : List Listener :=
  sortListener (eventsAt (w.storages o) n ++ matchingExpressions tst (w.storages o) n)

/-- retrieveListener as called by `emit`/`listener` (no `isGlobal` flag):
own exact listeners (a `.slice()` copy), concatenated with the broadcast
emitter's resolution (emitter 0), then own matching pattern listeners,
then sorted. -/
def retrieveListener (tst : String → String → String → Bool)
    (w : World) (o : Nat) (n : String) : List Listener :=
  sortListener (eventsAt (w.storages o) n ++ retrieveListenerG tst w 0 n
    ++ matchingExpressions tst (w.storages o) n)

/-- Truthiness of `listener.remaining` (`undefined` and `0` are falsy). -/
def truthyRemaining : Option Int → Bool
  | none => false
  | some n => n != 0

/-- Decrement of `listener.remaining -= 1` on the shared record. -/
def decRemaining (l : Listener) : Listener :=
  { l with remaining := l.remaining.map (fun n => n - 1) }

/-- Apply the in-place decrement to the record with the given object identity,
wherever the registries hold it. -/
def World.decRem (w : World) (lid : Nat) : World :=
  { w with storages := fun i =>
      let st := w.storages i
      { st with
        events := st.events.map (fun e => (e.1, e.2.map (fun l => if l.lid = lid then decRemaining l else l)))
        expressions := st.expressions.map (fun l => if l.lid = lid then decRemaining l else l) } }

/-- The `JSVal` a stored identifier reads back as when passed to `off`. -/
def storedVal : StoredId → JSVal
  | .name s => .str s
  | .re p => .re p

/-- The world after one iteration of the `listener.some(...)` body: the
callback has run (possibly mutating registries), the shared record's
`remaining` has been decremented when it was truthy, and when the decrement
hit zero the owner's `off(listener.identifier, listener.callback)` has run. -/
def dispatchStepW (interp : Nat → World → Bool → World × Bool) (o : Nat)
    (l : Listener) (w : World) (c : Bool) : World :=
  let r := interp l.callback w c
  if truthyRemaining l.remaining then
    let wd := World.decRem r.1 l.lid
    if l.remaining.getD 0 - 1 == 0 then
      (Emitter.off wd o (storedVal l.identifier) (.fn l.callback)).1
    else wd
  else r.1

/-- The `listener.some(...)` loop of `emit`: invoke the callback (passing the
event, whose `context` is the emitting owner `o`), apply `dispatchStepW`,
then stop when `event.isCanceled`.  Returns the world, the final canceled
flag and the log of invocations as (callback, event context) pairs. -/
def dispatchLoop (tst : String → String → String → Bool)
    (interp : Nat → World → Bool → World × Bool) (o : Nat) :
    List Listener → World → Bool → World × Bool × List (Nat × Nat)
  | [], w, c => (w, c, [])
  | l :: rest, w, c =>
      let c1 := c || (interp l.callback w c).2
      let w2 := dispatchStepW interp o l w c
      if c1 then (w2, c1, [(l.callback, o)])
      else
        let rec' := dispatchLoop tst interp o rest w2 c1
        (rec'.1, rec'.2.1, (l.callback, o) :: rec'.2.2)

/-- `emitter.emit(name, ...details)`: snapshot the candidate listeners, create
one event (`{name, context: this, canceled: false}`) and run the loop.
Returns the mutated world and the invocation log. -/
def Emitter.emit (tst : String → String → String → Bool)
    (interp : Nat → World → Bool → World × Bool)
    (w : World) (o : Nat) (n : String) : World × List (Nat × Nat) :=
  let snap := retrieveListener tst w o n
  let r := dispatchLoop tst interp o snap w false
  (r.1, r.2.2)

/-- `new Emitter()`: allocate a storage slot with
`{timestamp: +new Date(), events: {}, expressions: []}`; returns the new
emitter's index. -/
def newEmitter (w : World) : World × Nat :=
  ({ w with
      storages := fun i => if i = w.nstor then ⟨w.clock w.tick, [], []⟩ else w.storages i
      nstor := w.nstor + 1
      tick := w.tick + 1 }, w.nstor)

/-- Module load: `const global = new Emitter()`; the broadcast emitter gets
index 0. -/
def World.boot (clock : Nat → Int) : World :=
  (newEmitter ⟨fun _ => default, 0, 0, clock, 0⟩).1

/-- A callback interpretation under which every callback leaves the world
alone and never cancels. -/
def noopInterp : Nat → World → Bool → World × Bool :=
  fun _ w _ => (w, false)

/-- A callback interpretation under which exactly the callback with token `c`
calls `event.cancel()` and no callback mutates any registry. -/
def cancelOnly (c : Nat) : Nat → World → Bool → World × Bool :=
  fun k w _ => (w, k == c)

/-! ### Helper lemmas -/

theorem lookupEvents_updateAt_ne (evs : List (String × List Listener)) (n m : String)
    (f : List Listener → List Listener) (h : m ≠ n) :
    lookupEvents (updateAt evs n f) m = lookupEvents evs m := by
  induction evs with
  | nil => rfl
  | cons e rest ih =>
      obtain ⟨k, ls⟩ := e
      by_cases hk : k = n
      · subst hk
        simp [updateAt, lookupEvents, Ne.symm h]
      · simp only [updateAt, if_neg hk, lookupEvents]
        by_cases hm : k = m
        · simp [hm]
        · simp [hm, ih]

theorem unsubscribeEvent_expressions (st : Storage) (n : String) (cbv : JSVal) :
    (unsubscribeEvent st n cbv).expressions = st.expressions := by
  unfold unsubscribeEvent
  cases lookupEvents st.events n with
  | none => rfl
  | some ls => cases cbv <;> rfl

theorem unsubscribeEvent_other_names (st : Storage) (n m : String) (cbv : JSVal)
    (h : m ≠ n) :
    lookupEvents (unsubscribeEvent st n cbv).events m = lookupEvents st.events m := by
  unfold unsubscribeEvent
  cases lookupEvents st.events n with
  | none => rfl
  | some ls => cases cbv <;> simp [lookupEvents_updateAt_ne _ _ _ _ h]

theorem putStorage_self (w : World) (o : Nat) (st : Storage) :
    (w.putStorage o st).storages o = st := by
  simp [World.putStorage]

theorem offW_str (w : World) (o : Nat) (n : String) (cbv : JSVal) :
    offW (.str n) cbv o w
      = if (isCallback cbv || isUndefined cbv) = true
        then w.putStorage o (unsubscribeEvent (w.storages o) n cbv) else w := by
  rw [offW.eq_def]
  cases hcb : (isCallback cbv || isUndefined cbv) <;> simp [isIdentifier, isString, hcb]

theorem offW_re (w : World) (o : Nat) (p : Pattern) (cbv : JSVal) :
    offW (.re p) cbv o w
      = if (isCallback cbv || isUndefined cbv) = true
        then w.putStorage o (unsubscribeExpression (w.storages o) p cbv) else w := by
  rw [offW.eq_def]
  cases hcb : (isCallback cbv || isUndefined cbv) <;>
    simp [isIdentifier, isString, isExpression, hcb]

/-! ### Claim theorems -/

/-- Claim C9: invoking on/once/limit with an identifier that is not a string,
pattern or array, or with a non-callable callback, leaves the world unchanged
and still returns the owner; likewise for off when the identifier is invalid
or the callback is present but not callable. -/
theorem claim_C9 (w : World) (o : Nat) (idv cbv : JSVal) (prep : Bool) (lim : Option Int) :
    ((isIdentifier idv = false ∨ isCallback cbv = false) →
      Emitter.on w o idv cbv prep lim = (w, o) ∧
      Emitter.once w o idv cbv prep = (w, o) ∧
      Emitter.limit w o idv lim cbv prep = (w, o)) ∧
    ((isIdentifier idv = false ∨ (isCallback cbv = false ∧ isUndefined cbv = false)) →
      Emitter.off w o idv cbv = (w, o)) := by
  constructor
  · intro h
    have hon : ∀ lim', onW idv cbv prep lim' o w = w := by
      intro lim'
      rcases h with h | h
      · cases idv <;> simp_all [onW, isIdentifier, isString, isExpression, isArray]
      · cases idv <;> simp [onW, isIdentifier, isString, isExpression, isArray, h]
    exact ⟨by simp [Emitter.on, hon], by simp [Emitter.once, Emitter.on, hon],
      by simp [Emitter.limit, Emitter.on, hon]⟩
  · intro h
    have hoff : offW idv cbv o w = w := by
      rcases h with h | h
      · cases idv <;> simp_all [offW, isIdentifier, isString, isExpression, isArray]
      · cases idv <;> cases cbv <;>
          simp_all [offW, isIdentifier, isString, isExpression, isArray, isUndefined,
            isCallback]
    simp [Emitter.off, hoff]

/-- Witness for C9 at a concrete invalid input (a number as identifier and a
number as callback): all four operations return the unchanged world and the
owner. -/
theorem claim_C9_witness :
    Emitter.on (World.boot fun _ => 0) 1 (.num 3) (.num 4) false none
      = (World.boot fun _ => 0, 1) ∧
    Emitter.off (World.boot fun _ => 0) 1 (.num 3) (.num 4)
      = (World.boot fun _ => 0, 1) :=
  ⟨((claim_C9 (World.boot fun _ => 0) 1 (.num 3) (.num 4) false none).1 (Or.inl rfl)).1,
   (claim_C9 (World.boot fun _ => 0) 1 (.num 3) (.num 4) false none).2
     (Or.inr ⟨rfl, rfl⟩)⟩

/-- Claim C7: `off` with an exact name leaves the pattern-listener collection
and every other name's listener list unchanged, and `off` with a pattern
leaves every exact-name listener list unchanged (for any callback argument,
valid or not). -/
theorem claim_C7 (w : World) (o : Nat) (n : String) (p : Pattern) (cbv : JSVal) :
    (((Emitter.off w o (.str n) cbv).1.storages o).expressions
        = (w.storages o).expressions ∧
      ∀ m, m ≠ n →
        lookupEvents ((Emitter.off w o (.str n) cbv).1.storages o).events m
          = lookupEvents (w.storages o).events m) ∧
    (∀ m, lookupEvents ((Emitter.off w o (.re p) cbv).1.storages o).events m
        = lookupEvents (w.storages o).events m) := by
  refine ⟨⟨?_, ?_⟩, ?_⟩
  · show ((offW (.str n) cbv o w).storages o).expressions = _
    rw [offW_str]
    cases hcb : (isCallback cbv || isUndefined cbv) with
    | false => simp
    | true => simp [putStorage_self, unsubscribeEvent_expressions]
  · intro m hm
    show lookupEvents ((offW (.str n) cbv o w).storages o).events m = _
    rw [offW_str]
    cases hcb : (isCallback cbv || isUndefined cbv) with
    | false => simp
    | true => simp [putStorage_self, unsubscribeEvent_other_names _ _ _ _ hm]
  · intro m
    show lookupEvents ((offW (.re p) cbv o w).storages o).events m = _
    rw [offW_re]
    cases hcb : (isCallback cbv || isUndefined cbv) with
    | false => simp
    | true => simp [putStorage_self, unsubscribeExpression]

/-- Witness for C7: removing the exact name "a" leaves a registered pattern
listener with source text "a" untouched, and removing the pattern leaves the
exact listener list for "a" untouched. -/
theorem claim_C7_witness :
    (((Emitter.off
        (((World.boot fun _ => 0)).putStorage 1
          ⟨0, [("a", [⟨5, .name "a", 1, 3, none⟩])], [⟨6, .re ⟨0, "a", ""⟩, 2, 4, none⟩]⟩)
        1 (.str "a") .undef).1.storages 1).expressions
      = [⟨6, .re ⟨0, "a", ""⟩, 2, 4, none⟩]) ∧
    (lookupEvents ((Emitter.off
        (((World.boot fun _ => 0)).putStorage 1
          ⟨0, [("a", [⟨5, .name "a", 1, 3, none⟩])], [⟨6, .re ⟨0, "a", ""⟩, 2, 4, none⟩]⟩)
        1 (.re ⟨0, "a", ""⟩) .undef).1.storages 1).events "a"
      = some [⟨5, .name "a", 1, 3, none⟩]) := by
  constructor
  · exact (claim_C7 _ 1 "a" ⟨0, "a", ""⟩ .undef).1.1
  · exact (claim_C7 _ 1 "a" ⟨0, "a", ""⟩ .undef).2 "a"

/-- Claim C8: for pattern removal, two patterns with the same serialized text
(source and flags) are interchangeable in `off`, regardless of object
identity. -/
theorem claim_C8 (w : World) (o : Nat) (p q : Pattern) (cbv : JSVal)
    (h : p.serialize = q.serialize) :
    Emitter.off w o (.re p) cbv = Emitter.off w o (.re q) cbv := by
  have hf : filterRemoveExpression p cbv = filterRemoveExpression q cbv := by
    funext l
    simp [filterRemoveExpression, h]
  have hp : offW (.re p) cbv o w = offW (.re q) cbv o w := by
    rw [offW_re, offW_re]
    simp only [unsubscribeExpression, hf]
  simp [Emitter.off, hp]

/-- Witness for C8: two patterns with distinct object identity but equal text
remove the same listener. -/
theorem claim_C8_witness :
    Pattern.serialize ⟨1, "ab", "g"⟩ = Pattern.serialize ⟨2, "ab", "g"⟩ ∧
    Emitter.off
        (((World.boot fun _ => 0)).putStorage 1
          ⟨0, [], [⟨6, .re ⟨1, "ab", "g"⟩, 2, 4, none⟩]⟩) 1 (.re ⟨1, "ab", "g"⟩) .undef
      = Emitter.off
        (((World.boot fun _ => 0)).putStorage 1
          ⟨0, [], [⟨6, .re ⟨1, "ab", "g"⟩, 2, 4, none⟩]⟩) 1 (.re ⟨2, "ab", "g"⟩) .undef :=
  ⟨rfl, claim_C8 _ 1 ⟨1, "ab", "g"⟩ ⟨2, "ab", "g"⟩ .undef rfl⟩

/-- A regex engine under which no pattern matches anything (scenario worlds
below register no pattern listeners, so any engine gives the same dispatch). -/
def noTest : String → String → String → Bool := fun _ _ _ => false

/-- A world whose broadcast registry is empty and whose only owner (emitter 1)
has the given private storage. -/
def listWorld (st : Storage) : World :=
  { storages := fun i => if i = 1 then st else default
    nstor := 2
    nextLid := 100
    clock := fun _ => 0
    tick := 0 }

/-- Claim C3: with exactly the listeners [A, cancel, B] registered in that
order for the same name (the broadcast registry empty), `emit` invokes A,
then the cancel-listener, and stops: the invocation log is exactly
[A, cancel-listener], so B is never invoked and A's invocation is
unaffected. -/
theorem claim_C3 (tst : String → String → String → Bool)
    (T0 ta tc tb : Int) (a c b la lc lb : Nat) (n : String)
    (h1 : ta ≤ tc) (h2 : tc ≤ tb) (hac : a ≠ c) :
    (Emitter.emit tst (cancelOnly c)
      (listWorld ⟨T0, [(n, [⟨la, .name n, a, ta, none⟩, ⟨lc, .name n, c, tc, none⟩,
        ⟨lb, .name n, b, tb, none⟩])], []⟩) 1 n).2
      = [(a, 1), (c, 1)] := by
  have h1' : ¬ (tc < ta) := not_lt.mpr h1
  have h2' : ¬ (tb < tc) := not_lt.mpr h2
  have hbeq : (a == c) = false := beq_eq_false_iff_ne.mpr hac
  simp [Emitter.emit, retrieveListener, retrieveListenerG, eventsAt, lookupEvents,
    matchingExpressions, listWorld, sortListener, insertByTimestamp, h1', h2',
    dispatchLoop, dispatchStepW, cancelOnly, truthyRemaining, hbeq, beq_self_eq_true]

/-- Witness for C3 at concrete timestamps 1 ≤ 2 ≤ 3 and distinct callbacks. -/
theorem claim_C3_witness :
    ((1 : Int) ≤ 2 ∧ (2 : Int) ≤ 3 ∧ 1 ≠ 2) ∧
    (Emitter.emit noTest (cancelOnly 2)
      (listWorld ⟨0, [("x", [⟨0, .name "x", 1, 1, none⟩, ⟨1, .name "x", 2, 2, none⟩,
        ⟨2, .name "x", 3, 3, none⟩])], []⟩) 1 "x").2
      = [(1, 1), (2, 1)] :=
  ⟨⟨by decide, by decide, by decide⟩,
   claim_C3 noTest 0 1 2 3 1 2 3 0 1 2 "x" (by decide) (by decide) (by decide)⟩

/-- The C5 scenario: boot the module (broadcast emitter 0), construct owner
emitters 1 and 2, then `Global.on('x', cb)`. -/
def c5World (cb : Nat) : World :=
  (Emitter.on (newEmitter ((newEmitter (World.boot fun m => (m : Int))).1)).1
    0 (.str "x") (.fn cb) false none).1

set_option maxHeartbeats 2000000 in
/-- Claim C5: a broadcast listener for "x" is invoked exactly once per
`emit('x')` of each independent owner, each time with the emitting owner as
the event's context: owner 1's emit logs exactly [(cb, 1)] and owner 2's
subsequent emit logs exactly [(cb, 2)]. -/
theorem claim_C5 (cb : Nat) :
    (Emitter.emit noTest noopInterp (c5World cb) 1 "x").2 = [(cb, 1)] ∧
    (Emitter.emit noTest noopInterp
      ((Emitter.emit noTest noopInterp (c5World cb) 1 "x").1) 2 "x").2 = [(cb, 2)] :=
  ⟨rfl, rfl⟩

/-- The C10 scenario: boot the module, construct owner 1, then
`owner.limit('x', 0, cb)`. -/
def c10World (cb : Nat) : World :=
  (Emitter.limit ((newEmitter (World.boot fun _ => 0)).1) 1 (.str "x") (some 0)
    (.fn cb) false).1

/-- Claim C10: `limit(identifier, 0, callback)` registers a listener with
`remaining = 0`, and because `0` is falsy the dispatcher's countdown guard
treats it like the unbounded case: every emit invokes the callback, the world
is left entirely unchanged (in particular the listener is never removed), and
this repeats for arbitrarily many emits. -/
theorem claim_C10 (cb : Nat) :
    eventsAt ((c10World cb).storages 1) "x" = [⟨0, .name "x", cb, 0, some 0⟩] ∧
    Emitter.emit noTest noopInterp (c10World cb) 1 "x" = (c10World cb, [(cb, 1)]) ∧
    ∀ k : Nat,
      (fun w => (Emitter.emit noTest noopInterp w 1 "x").1)^[k] (c10World cb)
        = c10World cb := by
  refine ⟨rfl, rfl, ?_⟩
  intro k
  induction k with
  | zero => rfl
  | succ m ih =>
      rw [Function.iterate_succ_apply]
      exact ih

theorem dispatchLoop_log_take (tst : String → String → String → Bool)
    (interp : Nat → World → Bool → World × Bool) (o : Nat) :
    ∀ (snap : List Listener) (w : World) (c : Bool),
      ∃ k, (dispatchLoop tst interp o snap w c).2.2
        = (snap.map fun l => (l.callback, o)).take k := by
  intro snap
  induction snap with
  | nil => exact fun w c => ⟨0, rfl⟩
  | cons l rest ih =>
      intro w c
      cases hc1 : (c || (interp l.callback w c).2) with
      | true => exact ⟨1, by simp [dispatchLoop, hc1]⟩
      | false =>
          obtain ⟨k, hk⟩ := ih (dispatchStepW interp o l w c) false
          exact ⟨k + 1, by simp [dispatchLoop, hc1, hk]⟩

theorem dispatchLoop_log_all (tst : String → String → String → Bool)
    (interp : Nat → World → Bool → World × Bool) (o : Nat)
    (hnc : ∀ c wx fl, (interp c wx fl).2 = false) :
    ∀ (snap : List Listener) (w : World),
      (dispatchLoop tst interp o snap w false).2.2
        = snap.map fun l => (l.callback, o) := by
  intro snap
  induction snap with
  | nil => exact fun w => rfl
  | cons l rest ih =>
      intro w
      have hc1 : (false || (interp l.callback w false).2) = false := by simp [hnc]
      simp [dispatchLoop, hc1, ih]

/-- Claim C6: the set and order of listeners an emit invokes are fixed when
dispatch starts: for an arbitrary callback interpretation (callbacks may
subscribe, unsubscribe or otherwise mutate the registries mid-dispatch), the
invocation log is always a prefix of the snapshot taken from the pre-emit
world (truncation only through cancellation), and when no callback cancels,
the log is exactly that snapshot — mid-dispatch mutations take effect only
for later emits. -/
theorem claim_C6 (tst : String → String → String → Bool)
    (interp : Nat → World → Bool → World × Bool) (w : World) (o : Nat) (n : String) :
    (∃ k, (Emitter.emit tst interp w o n).2
        = ((retrieveListener tst w o n).map fun l => (l.callback, o)).take k) ∧
    ((∀ c wx fl, (interp c wx fl).2 = false) →
      (Emitter.emit tst interp w o n).2
        = (retrieveListener tst w o n).map fun l => (l.callback, o)) :=
  ⟨dispatchLoop_log_take tst interp o (retrieveListener tst w o n) w false,
   fun hnc => dispatchLoop_log_all tst interp o hnc (retrieveListener tst w o n) w⟩

/-- Witness for C6 with the no-op interpretation on a concrete world. -/
theorem claim_C6_witness :
    (∃ k, (Emitter.emit noTest noopInterp (c5World 3) 1 "x").2
        = ((retrieveListener noTest (c5World 3) 1 "x").map fun l => (l.callback, 1)).take k) ∧
    (Emitter.emit noTest noopInterp (c5World 3) 1 "x").2
        = (retrieveListener noTest (c5World 3) 1 "x").map fun l => (l.callback, 1) :=
  ⟨(claim_C6 noTest noopInterp (c5World 3) 1 "x").1,
   (claim_C6 noTest noopInterp (c5World 3) 1 "x").2 (fun _ _ _ => rfl)⟩

/-- The C2 scenario: owner 1 has, for name "x", a limited listener
(`remaining = 1`) with callback `c` plus an unbounded listener with callback
`c2`, and for name "y" an unbounded listener that also uses callback `c`;
the broadcast registry is empty. -/
def c2World (c c2 : Nat) : World :=
  listWorld ⟨0, [("x", [⟨1, .name "x", c, 1, some 1⟩, ⟨2, .name "x", c2, 2, none⟩]),
    ("y", [⟨3, .name "y", c, 3, none⟩])], []⟩

/-- Claim C2, corrected: when the limited listener's count reaches zero the
dispatcher runs `off(identifier, callback)`, which removes every exact-name
record for that name with that same callback, not just the expired record;
records with a different callback survive, as do records under other names
and all pattern listeners, and both snapshot entries are still invoked. -/
theorem claim_C2_amended (tst : String → String → String → Bool) (c c2 : Nat)
    (h : c2 ≠ c) :
    eventsAt (((Emitter.emit tst noopInterp (c2World c c2) 1 "x").1).storages 1) "x"
      = [⟨2, .name "x", c2, 2, none⟩] ∧
    eventsAt (((Emitter.emit tst noopInterp (c2World c c2) 1 "x").1).storages 1) "y"
      = [⟨3, .name "y", c, 3, none⟩] ∧
    (((Emitter.emit tst noopInterp (c2World c c2) 1 "x").1).storages 1).expressions = [] ∧
    (Emitter.emit tst noopInterp (c2World c c2) 1 "x").2 = [(c, 1), (c2, 1)] := by
  have hne : (c2 != c) = true := bne_iff_ne.mpr h
  refine ⟨?_, ?_, ?_, ?_⟩ <;>
    simp [Emitter.emit, retrieveListener, retrieveListenerG, eventsAt, lookupEvents,
      matchingExpressions, c2World, listWorld, sortListener, insertByTimestamp,
      dispatchLoop, dispatchStepW, noopInterp, truthyRemaining, World.decRem,
      decRemaining, Emitter.off, offW, isIdentifier, isString, isCallback,
      isUndefined, unsubscribeEvent, updateAt, filterRemoveEvent, storedVal,
      World.putStorage, hne, bne_self_eq_false]

/-- Witness for the corrected C2 at concrete distinct callbacks 7 and 8. -/
theorem claim_C2_amended_witness :
    (8 ≠ 7) ∧
    eventsAt (((Emitter.emit noTest noopInterp (c2World 7 8) 1 "x").1).storages 1) "x"
      = [⟨2, .name "x", 8, 2, none⟩] :=
  ⟨by decide, (claim_C2_amended noTest 7 8 (by decide)).1⟩

/-- Counterexample to C2 as stated: with the limited listener (callback 7,
remaining 1) and a second record with the same identifier "x" and the same
callback 7 but unbounded remaining, the emit that expires the first record
also removes the unbounded record — the listener list for "x" ends up empty,
although the claim says the unbounded record stays registered. -/
theorem claim_C2_counterexample :
    eventsAt (((Emitter.emit noTest noopInterp (c2World 7 7) 1 "x").1).storages 1) "x"
      = [] := by
  rfl

/-! ### Ordering-key analysis (claims C1 and C4)

A sequence of `on` calls with string identifiers is run through the real API;
`applyRegOpsK` records the ordering key (`timestamp`) each new listener record
received, and `specKeys` computes those keys directly so that their arithmetic
can be analysed. -/

/-- One `emitter.on(name, cb, prepend)` call in a registration sequence. -/
structure RegOp where
  name : String
  cb : Nat
  prep : Bool

/-- The `timestamp` of the most recently pushed listener for a name. -/
def lastTsAt (w : World) (o : Nat) (n : String) : Int :=
  ((eventsAt (w.storages o) n).getLastD default).timestamp

/-- Run a registration sequence through the real `Emitter.on`, collecting the
ordering key each newly created listener record received. -/
def applyRegOpsK (o : Nat) : List RegOp → World → World × List Int
  | [], w => (w, [])
  | op :: rest, w =>
      let w1 := (Emitter.on w o (.str op.name) (.fn op.cb) op.prep none).1
      let r := applyRegOpsK o rest w1
      (r.1, lastTsAt w1 o op.name :: r.2)

/-- The keys a registration sequence produces: a prepend decrements the
storage counter and uses it; an append reads the wall clock (and advances the
tick) without touching the counter. -/
def specKeys (clock : Nat → Int) : Int → Nat → List RegOp → List Int
  | _, _, [] => []
  | c, t, op :: rest =>
      if op.prep then (c - 1) :: specKeys clock (c - 1) t rest
      else clock t :: specKeys clock c (t + 1) rest

theorem lookupEvents_pushEvent_self (evs : List (String × List Listener))
    (n : String) (l : Listener) :
    lookupEvents (pushEvent evs n l) n = some ((lookupEvents evs n).getD [] ++ [l]) := by
  induction evs with
  | nil => simp [pushEvent, lookupEvents]
  | cons e rest ih =>
      obtain ⟨k, ls⟩ := e
      by_cases hk : k = n
      · subst hk
        simp [pushEvent, lookupEvents]
      · simp [pushEvent, lookupEvents, hk, ih]

theorem getLastD_concat {α : Type} (xs : List α) (a d : α) :
    (xs ++ [a]).getLastD d = a := by
  induction xs with
  | nil => rfl
  | cons x rest ih => simp [List.getLastD, ih]

theorem on_str_step (w : World) (o : Nat) (n : String) (cb : Nat) (prep : Bool)
    (lim : Option Int) :
    (Emitter.on w o (.str n) (.fn cb) prep lim).1
      = subscribeEvent w o n cb prep lim := by
  simp [Emitter.on, onW, isIdentifier, isString, isCallback, cbId]

theorem applyRegOpsK_eq_specKeys (o : Nat) :
    ∀ (ops : List RegOp) (w : World),
      (applyRegOpsK o ops w).2
        = specKeys w.clock (w.storages o).timestamp w.tick ops := by
  intro ops
  induction ops with
  | nil => exact fun w => rfl
  | cons op rest ih =>
      intro w
      simp only [applyRegOpsK, on_str_step]
      cases hp : op.prep with
      | true =>
          simp [specKeys, hp, subscribeEvent, Listener.make, World.putStorage,
            lastTsAt, eventsAt, lookupEvents_pushEvent_self, getLastD_concat, ih]
      | false =>
          simp [specKeys, hp, subscribeEvent, Listener.make, World.putStorage,
            lastTsAt, eventsAt, lookupEvents_pushEvent_self, getLastD_concat, ih]

theorem specKeys_prep_le (clock : Nat → Int) :
    ∀ (ops : List RegOp) (c : Int) (t i : Nat) (op : RegOp) (k : Int),
      ops[i]? = some op → op.prep = true →
      (specKeys clock c t ops)[i]? = some k → k ≤ c - 1 := by
  intro ops
  induction ops with
  | nil => intro c t i op k h; simp at h
  | cons hd rest ih =>
      intro c t i op k hop hprep hk
      cases i with
      | zero =>
          simp only [List.getElem?_cons_zero, Option.some.injEq] at hop
          subst hop
          simp only [specKeys, hprep, if_true, List.getElem?_cons_zero,
            Option.some.injEq] at hk
          omega
      | succ j =>
          simp only [List.getElem?_cons_succ] at hop
          cases hph : hd.prep with
          | true =>
              have hk' : (specKeys clock (c - 1) t rest)[j]? = some k := by
                simpa [specKeys, hph] using hk
              have := ih (c - 1) t j op k hop hprep hk'
              omega
          | false =>
              have hk' : (specKeys clock c (t + 1) rest)[j]? = some k := by
                simpa [specKeys, hph] using hk
              exact ih c (t + 1) j op k hop hprep hk'

theorem specKeys_app_clock (clock : Nat → Int) :
    ∀ (ops : List RegOp) (c : Int) (t i : Nat) (op : RegOp) (k : Int),
      ops[i]? = some op → op.prep = false →
      (specKeys clock c t ops)[i]? = some k → ∃ m, t ≤ m ∧ k = clock m := by
  intro ops
  induction ops with
  | nil => intro c t i op k h; simp at h
  | cons hd rest ih =>
      intro c t i op k hop hprep hk
      cases i with
      | zero =>
          simp only [List.getElem?_cons_zero, Option.some.injEq] at hop
          subst hop
          simp only [specKeys, hprep, if_false, Bool.false_eq_true,
            List.getElem?_cons_zero, Option.some.injEq] at hk
          exact ⟨t, le_refl t, hk.symm⟩
      | succ j =>
          simp only [List.getElem?_cons_succ] at hop
          cases hph : hd.prep with
          | true =>
              have hk' : (specKeys clock (c - 1) t rest)[j]? = some k := by
                simpa [specKeys, hph] using hk
              exact ih (c - 1) t j op k hop hprep hk'
          | false =>
              have hk' : (specKeys clock c (t + 1) rest)[j]? = some k := by
                simpa [specKeys, hph] using hk
              obtain ⟨m, hm, he⟩ := ih c (t + 1) j op k hop hprep hk'
              exact ⟨m, by omega, he⟩

theorem specKeys_prep_lt (clock : Nat → Int) :
    ∀ (ops : List RegOp) (c : Int) (t i j : Nat) (opi opj : RegOp) (ki kj : Int),
      j < i →
      ops[i]? = some opi → opi.prep = true →
      ops[j]? = some opj → opj.prep = true →
      (specKeys clock c t ops)[i]? = some ki →
      (specKeys clock c t ops)[j]? = some kj → ki < kj := by
  intro ops
  induction ops with
  | nil => intro c t i j opi opj ki kj hji h; simp at h
  | cons hd rest ih =>
      intro c t i j opi opj ki kj hji hgi hpi hgj hpj hki hkj
      cases j with
      | zero =>
          obtain ⟨i', rfl⟩ : ∃ i', i = i' + 1 := ⟨i - 1, by omega⟩
          simp only [List.getElem?_cons_zero, Option.some.injEq] at hgj
          subst hgj
          simp only [List.getElem?_cons_succ] at hgi
          simp only [specKeys, hpj, if_true, List.getElem?_cons_zero,
            List.getElem?_cons_succ, Option.some.injEq] at hki hkj
          have := specKeys_prep_le clock rest (c - 1) t i' opi ki hgi hpi hki
          omega
      | succ j' =>
          obtain ⟨i', rfl⟩ : ∃ i', i = i' + 1 := ⟨i - 1, by omega⟩
          simp only [List.getElem?_cons_succ] at hgi hgj
          cases hph : hd.prep with
          | true =>
              simp only [specKeys, hph, if_true, List.getElem?_cons_succ] at hki hkj
              exact ih (c - 1) t i' j' opi opj ki kj (by omega) hgi hpi hgj hpj hki hkj
          | false =>
              simp only [specKeys, hph, if_false, Bool.false_eq_true,
                List.getElem?_cons_succ] at hki hkj
              exact ih c (t + 1) i' j' opi opj ki kj (by omega) hgi hpi hgj hpj hki hkj

theorem specKeys_app_ne (clock : Nat → Int) (hinj : Function.Injective clock) :
    ∀ (ops : List RegOp) (c : Int) (t i j : Nat) (opi opj : RegOp) (ki kj : Int),
      i < j →
      ops[i]? = some opi → opi.prep = false →
      ops[j]? = some opj → opj.prep = false →
      (specKeys clock c t ops)[i]? = some ki →
      (specKeys clock c t ops)[j]? = some kj → ki ≠ kj := by
  intro ops
  induction ops with
  | nil => intro c t i j opi opj ki kj hij h; simp at h
  | cons hd rest ih =>
      intro c t i j opi opj ki kj hij hgi hpi hgj hpj hki hkj
      cases i with
      | zero =>
          obtain ⟨j', rfl⟩ : ∃ j', j = j' + 1 := ⟨j - 1, by omega⟩
          simp only [List.getElem?_cons_zero, Option.some.injEq] at hgi
          subst hgi
          simp only [List.getElem?_cons_succ] at hgj
          simp only [specKeys, hpi, if_false, Bool.false_eq_true,
            List.getElem?_cons_zero, List.getElem?_cons_succ, Option.some.injEq] at hki hkj
          obtain ⟨m, hm, he⟩ := specKeys_app_clock clock rest c (t + 1) j' opj kj hgj hpj hkj
          subst he
          rw [← hki]
          intro hcontra
          have : t = m := hinj hcontra
          omega
      | succ i' =>
          obtain ⟨j', rfl⟩ : ∃ j', j = j' + 1 := ⟨j - 1, by omega⟩
          simp only [List.getElem?_cons_succ] at hgi hgj
          cases hph : hd.prep with
          | true =>
              simp only [specKeys, hph, if_true, List.getElem?_cons_succ] at hki hkj
              exact ih (c - 1) t i' j' opi opj ki kj (by omega) hgi hpi hgj hpj hki hkj
          | false =>
              simp only [specKeys, hph, if_false, Bool.false_eq_true,
                List.getElem?_cons_succ] at hki hkj
              exact ih c (t + 1) i' j' opi opj ki kj (by omega) hgi hpi hgj hpj hki hkj

/-- Claim C1, corrected: ordering keys are pairwise distinct provided the
wall-clock readings are injective (no two reads in the same millisecond) and
no reading precedes the registry's construction reading; two appends in the
same clock millisecond receive equal keys (see the counterexample). -/
theorem claim_C1_amended (w : World) (o : Nat) (ops : List RegOp) (i j : Nat)
    (opi opj : RegOp) (ki kj : Int)
    (hinj : Function.Injective w.clock)
    (hclk : ∀ m, (w.storages o).timestamp ≤ w.clock m)
    (hij : i ≠ j)
    (hgi : ops[i]? = some opi) (hgj : ops[j]? = some opj)
    (hki : (applyRegOpsK o ops w).2[i]? = some ki)
    (hkj : (applyRegOpsK o ops w).2[j]? = some kj) :
    ki ≠ kj := by
  rw [applyRegOpsK_eq_specKeys] at hki hkj
  cases hpi : opi.prep with
  | true =>
      cases hpj : opj.prep with
      | true =>
          rcases Nat.lt_or_ge i j with hlt | hge
          · have := specKeys_prep_lt w.clock ops (w.storages o).timestamp w.tick
              j i opj opi kj ki hlt hgj hpj hgi hpi hkj hki
            omega
          · have hlt : j < i := by omega
            have := specKeys_prep_lt w.clock ops (w.storages o).timestamp w.tick
              i j opi opj ki kj hlt hgi hpi hgj hpj hki hkj
            omega
      | false =>
          have h1 := specKeys_prep_le w.clock ops (w.storages o).timestamp w.tick
            i opi ki hgi hpi hki
          obtain ⟨m, hm, he⟩ := specKeys_app_clock w.clock ops (w.storages o).timestamp
            w.tick j opj kj hgj hpj hkj
          have h2 : (w.storages o).timestamp ≤ kj := he ▸ hclk m
          omega
  | false =>
      cases hpj : opj.prep with
      | true =>
          have h1 := specKeys_prep_le w.clock ops (w.storages o).timestamp w.tick
            j opj kj hgj hpj hkj
          obtain ⟨m, hm, he⟩ := specKeys_app_clock w.clock ops (w.storages o).timestamp
            w.tick i opi ki hgi hpi hki
          have h2 : (w.storages o).timestamp ≤ ki := he ▸ hclk m
          omega
      | false =>
          rcases Nat.lt_or_ge i j with hlt | hge
          · exact specKeys_app_ne w.clock hinj ops (w.storages o).timestamp w.tick
              i j opi opj ki kj hlt hgi hpi hgj hpj hki hkj
          · have hlt : j < i := by omega
            exact (specKeys_app_ne w.clock hinj ops (w.storages o).timestamp w.tick
              j i opj opi kj ki hlt hgj hpj hgi hpi hkj hki).symm

/-- An owner whose storage counter starts at 0 under a strictly increasing
clock that never reads below 0. -/
def c1World : World :=
  { storages := fun i => if i = 1 then ⟨0, [], []⟩ else default
    nstor := 2
    nextLid := 0
    clock := fun m => (m : Int) + 1
    tick := 0 }

/-- Witness for the corrected C1: under an injective clock the two appended
listeners get the distinct keys 1 and 2. -/
theorem claim_C1_amended_witness :
    (applyRegOpsK 1 [⟨"x", 1, false⟩, ⟨"y", 2, false⟩] c1World).2 = [1, 2] ∧
    (1 : Int) ≠ 2 :=
  ⟨rfl,
   claim_C1_amended c1World 1 [⟨"x", 1, false⟩, ⟨"y", 2, false⟩] 0 1
     ⟨"x", 1, false⟩ ⟨"y", 2, false⟩ 1 2
     (fun a b hab => by
       have h : (a : Int) + 1 = (b : Int) + 1 := hab
       omega)
     (fun m => by
       show (0 : Int) ≤ (m : Int) + 1
       omega)
     (by decide) rfl rfl rfl rfl⟩

/-- An owner constructed at clock reading 5 under a clock frozen at 5: every
`+new Date()` read during the same millisecond yields 5. -/
def c1cexWorld : World :=
  { storages := fun i => if i = 1 then ⟨5, [], []⟩ else default
    nstor := 2
    nextLid := 0
    clock := fun _ => 5
    tick := 0 }

/-- Counterexample to C1 as stated: two distinct (appended) subscribe
operations performed within the same clock millisecond receive the same
ordering key 5, so `order` values are not pairwise distinct. -/
theorem claim_C1_counterexample :
    (applyRegOpsK 1 [⟨"x", 1, false⟩, ⟨"y", 2, false⟩] c1cexWorld).2 = [5, 5] ∧
    (applyRegOpsK 1 [⟨"x", 1, false⟩, ⟨"y", 2, false⟩] c1cexWorld).2[0]?
      = (applyRegOpsK 1 [⟨"x", 1, false⟩, ⟨"y", 2, false⟩] c1cexWorld).2[1]? :=
  ⟨rfl, rfl⟩

/-- The C4 example: `owner.on('x', f)` then `owner.on('x', g, true)` under an
identity clock; f is callback 10, g is callback 20. -/
def c4World : World :=
  (Emitter.on
    ((Emitter.on ((newEmitter (World.boot fun m => (m : Int))).1)
      1 (.str "x") (.fn 10) false none).1)
    1 (.str "x") (.fn 20) true none).1

/-- Claim C4: a prepended listener's key is strictly smaller than the key of
every non-prepended listener registered before or after it (assuming no clock
reading precedes the registry's construction reading) and strictly smaller
than the key of every earlier-prepended listener; in particular
`owner.on('x', f).on('x', g, true).emit('x')` dispatches [g, f]. -/
theorem claim_C4 :
    (∀ (w : World) (o : Nat) (ops : List RegOp) (i j : Nat) (opi opj : RegOp)
        (ki kj : Int),
      (∀ m, (w.storages o).timestamp ≤ w.clock m) →
      ops[i]? = some opi → ops[j]? = some opj →
      (applyRegOpsK o ops w).2[i]? = some ki →
      (applyRegOpsK o ops w).2[j]? = some kj →
      opi.prep = true →
      ((opj.prep = false → ki < kj) ∧ (opj.prep = true → j < i → ki < kj))) ∧
    (Emitter.emit noTest noopInterp c4World 1 "x").2 = [(20, 1), (10, 1)] := by
  constructor
  · intro w o ops i j opi opj ki kj hclk hgi hgj hki hkj hpi
    rw [applyRegOpsK_eq_specKeys] at hki hkj
    constructor
    · intro hpj
      have h1 := specKeys_prep_le w.clock ops (w.storages o).timestamp w.tick
        i opi ki hgi hpi hki
      obtain ⟨m, hm, he⟩ := specKeys_app_clock w.clock ops (w.storages o).timestamp
        w.tick j opj kj hgj hpj hkj
      have h2 : (w.storages o).timestamp ≤ kj := he ▸ hclk m
      omega
    · intro hpj hji
      exact specKeys_prep_lt w.clock ops (w.storages o).timestamp w.tick
        i j opi opj ki kj hji hgi hpi hgj hpj hki hkj
  · rfl

/-- Witness for C4 at the constant clock 5: the appended listener gets key 5,
the prepended listener key 4, and the theorem yields 4 < 5. -/
theorem claim_C4_witness :
    (applyRegOpsK 1 [⟨"x", 10, false⟩, ⟨"x", 20, true⟩] c1cexWorld).2 = [5, 4] ∧
    (4 : Int) < 5 :=
  ⟨rfl,
   (claim_C4.1 c1cexWorld 1 [⟨"x", 10, false⟩, ⟨"x", 20, true⟩] 1 0
     ⟨"x", 20, true⟩ ⟨"x", 10, false⟩ 4 5
     (fun _ => le_refl 5) rfl rfl rfl rfl rfl).1 rfl⟩

end Flexee
